import Mathlib

/-
Formal model of the test-harness scripts of the rust-compiler repository:
scripts/test_ir_pipeline.py, test/ir/run_ir_e2e.py, scripts/run_tests.py,
scripts/generate_report.py, scripts/ai_analyzer.py and scripts/test.py.
Text is modelled as lists of characters, process exit codes as Int.
-/

abbrev Txt := List Char

/-- Characters stripped by Python str.rstrip and str.strip with no
argument (the Unicode whitespace set of str.isspace). -/
def pyIsSpace (c : Char) : Bool :=
  c == ' ' || c == '\t' || c == '\n' || c == '\r' || c == '\x0b' || c == '\x0c' ||
  c == '\x1c' || c == '\x1d' || c == '\x1e' || c == '\x1f' || c == '\x85' || c == '\xa0' ||
  c == '\u1680' || (decide (0x2000 ≤ c.toNat) && decide (c.toNat ≤ 0x200a)) ||
  c == '\u2028' || c == '\u2029' || c == '\u202F' || c == '\u205F' || c == '\u3000'

/-- Line boundaries recognised by Python str.splitlines. -/
def isLB (c : Char) : Bool :=
  c == '\n' || c == '\r' || c == '\x0b' || c == '\x0c' ||
  c == '\x1c' || c == '\x1d' || c == '\x1e' || c == '\x85' ||
  c == '\u2028' || c == '\u2029'

theorem pyIsSpace_of_isLB {c : Char} (h : isLB c = true) : pyIsSpace c = true := by
  simp only [isLB, Bool.or_eq_true, beq_iff_eq] at h
  rcases h with ((((((((h|h)|h)|h)|h)|h)|h)|h)|h)|h <;> subst h <;> decide

/-- Python str.rstrip with no argument. -/
def pyRstrip (l : Txt) : Txt :=
  (l.reverse.dropWhile pyIsSpace).reverse

/-- Python str.lstrip with no argument. -/
def pyLstrip (l : Txt) : Txt :=
  l.dropWhile pyIsSpace

/-- Python str.strip with no argument. -/
def pyStrip (l : Txt) : Txt :=
  pyRstrip (pyLstrip l)

/-- Python str.splitlines, one pass with an accumulator holding the
current line reversed; a carriage return directly followed by a newline
counts as a single line break, and a trailing line break produces no
extra empty line. -/
def splitlinesAux (acc : Txt) : Txt → List Txt
  | [] => if acc = [] then [] else [acc.reverse]
  | c :: cs =>
    if isLB c then
      acc.reverse ::
        (if c = '\r' then
          (match cs with
           | [] => splitlinesAux [] []
           | d :: cs2 => if d = '\n' then splitlinesAux [] cs2 else splitlinesAux [] (d :: cs2))
         else splitlinesAux [] cs)
    else splitlinesAux (c :: acc) cs

/-- Python str.splitlines. -/
def pySplitlines (t : Txt) : List Txt := splitlinesAux [] t

theorem splitlinesAux_cons (acc : Txt) (c : Char) (cs : Txt) :
    splitlinesAux acc (c :: cs) =
      if isLB c then
        acc.reverse ::
          (if c = '\r' then
            (match cs with
             | [] => splitlinesAux [] []
             | d :: cs2 => if d = '\n' then splitlinesAux [] cs2 else splitlinesAux [] (d :: cs2))
           else splitlinesAux [] cs)
      else splitlinesAux (c :: acc) cs := by
  rw [splitlinesAux.eq_def]
  rfl

theorem splitlinesAux_nilCase (acc : Txt) :
    splitlinesAux acc [] = if acc = [] then [] else [acc.reverse] := by
  rw [splitlinesAux.eq_def]

theorem splitlinesAux_nl (acc : Txt) (cs : Txt) :
    splitlinesAux acc ('\n' :: cs) = acc.reverse :: splitlinesAux [] cs := by
  rw [splitlinesAux_cons, if_pos (show isLB '\n' = true by decide),
    if_neg (show ¬('\n' = '\r') by decide)]

theorem splitlinesAux_notLB (acc : Txt) (c : Char) (cs : Txt) (h : isLB c = false) :
    splitlinesAux acc (c :: cs) = splitlinesAux (c :: acc) cs := by
  rw [splitlinesAux_cons, if_neg (show ¬(isLB c = true) by simp [h])]

/-- The join by a single newline, as used to reassemble normalized lines. -/
def joinNl : List Txt → Txt
  | [] => []
  | [l] => l
  | l :: l2 :: ls => l ++ '\n' :: joinNl (l2 :: ls)

/-- normalize_output from scripts/test_ir_pipeline.py (and the identical
function in test/ir/run_ir_e2e.py): split into lines, strip trailing
whitespace from every line, drop the lines that become empty. -/
def normalize_output (text : Txt) : List Txt :=
  ((pySplitlines text).filter (fun l => !(pyRstrip l).isEmpty)).map pyRstrip

theorem mem_of_mem_dropWhile {p : Char → Bool} {l : Txt} {c : Char}
    (h : c ∈ l.dropWhile p) : c ∈ l := by
  induction l with
  | nil => simp at h
  | cons a l ih =>
    rw [List.dropWhile_cons] at h
    split at h
    · exact List.mem_cons_of_mem a (ih h)
    · exact h

theorem mem_of_mem_pyRstrip {l : Txt} {c : Char} (h : c ∈ pyRstrip l) : c ∈ l := by
  unfold pyRstrip at h
  rw [List.mem_reverse] at h
  exact (List.mem_reverse).mp (mem_of_mem_dropWhile h)

theorem dropWhile_dropWhile (p : Char → Bool) (l : Txt) :
    (l.dropWhile p).dropWhile p = l.dropWhile p := by
  induction l with
  | nil => simp
  | cons a l ih =>
    rw [List.dropWhile_cons]
    split
    · exact ih
    · rw [List.dropWhile_cons]
      simp_all

theorem pyRstrip_idem (l : Txt) : pyRstrip (pyRstrip l) = pyRstrip l := by
  unfold pyRstrip
  rw [List.reverse_reverse, dropWhile_dropWhile]

theorem splitlinesAux_terminal {l : Txt} (acc : Txt) (h : ∀ c ∈ l, isLB c = false)
    (hne : acc ≠ [] ∨ l ≠ []) :
    splitlinesAux acc l = [acc.reverse ++ l] := by
  induction l generalizing acc with
  | nil =>
    rcases hne with h1 | h1
    · rw [splitlinesAux_nilCase, if_neg h1]
      simp
    · exact absurd rfl h1
  | cons c cs ih =>
    rw [splitlinesAux_notLB acc c cs (h c (List.mem_cons_self c cs))]
    rw [ih (c :: acc) (fun d hd => h d (List.mem_cons_of_mem c hd)) (Or.inl (by simp))]
    simp

theorem splitlinesAux_append_nl {l : Txt} (acc r : Txt) (h : ∀ c ∈ l, isLB c = false) :
    splitlinesAux acc (l ++ '\n' :: r) = (acc.reverse ++ l) :: splitlinesAux [] r := by
  induction l generalizing acc with
  | nil => simp [splitlinesAux_nl]
  | cons c cs ih =>
    rw [List.cons_append,
      splitlinesAux_notLB acc c (cs ++ '\n' :: r) (h c (List.mem_cons_self c cs))]
    rw [ih (c :: acc) (fun d hd => h d (List.mem_cons_of_mem c hd))]
    simp

theorem pySplitlines_joinNl {ls : List Txt}
    (h : ∀ l ∈ ls, l ≠ [] ∧ ∀ c ∈ l, isLB c = false) :
    pySplitlines (joinNl ls) = ls := by
  induction ls with
  | nil => rfl
  | cons l ls ih =>
    rcases h l (List.mem_cons_self l ls) with ⟨hne, hfree⟩
    cases ls with
    | nil =>
      show splitlinesAux [] l = [l]
      rw [splitlinesAux_terminal [] hfree (Or.inr hne)]
      simp
    | cons l2 ls2 =>
      show splitlinesAux [] (l ++ '\n' :: joinNl (l2 :: ls2)) = l :: l2 :: ls2
      rw [splitlinesAux_append_nl [] _ hfree]
      simp only [List.reverse_nil, List.nil_append]
      exact congrArg _ (ih (fun x hx => h x (List.mem_cons_of_mem _ hx)))

theorem mem_splitlinesAux_lbFree :
    ∀ (n : Nat) (t acc : Txt), t.length ≤ n → (∀ c ∈ acc, isLB c = false) →
      ∀ l ∈ splitlinesAux acc t, ∀ c ∈ l, isLB c = false := by
  intro n
  induction n with
  | zero =>
    intro t acc ht ha l hl
    have : t = [] := List.length_eq_zero.mp (Nat.le_zero.mp ht)
    subst this
    rw [splitlinesAux_nilCase] at hl
    split at hl
    · simp at hl
    · rcases List.mem_singleton.mp hl with rfl
      intro c hc
      exact ha c (List.mem_reverse.mp hc)
  | succ n ih =>
    intro t acc ht ha l hl
    cases t with
    | nil =>
      rw [splitlinesAux_nilCase] at hl
      split at hl
      · simp at hl
      · rcases List.mem_singleton.mp hl with rfl
        intro c hc
        exact ha c (List.mem_reverse.mp hc)
    | cons a cs =>
      have hcs : cs.length ≤ n := Nat.le_of_succ_le_succ ht
      rw [splitlinesAux_cons] at hl
      split at hl
      · rcases List.mem_cons.mp hl with rfl | hl2
        · intro c hc
          exact ha c (List.mem_reverse.mp hc)
        · split at hl2
          · rcases hcs2 : cs with _ | ⟨d, cs2⟩
            · subst hcs2
              simp only [] at hl2
              exact ih [] [] (by simp) (by simp) l hl2
            · subst hcs2
              simp only [] at hl2
              split at hl2
              · exact ih cs2 [] (Nat.le_of_succ_le hcs) (by simp) l hl2
              · exact ih (d :: cs2) [] hcs (by simp) l hl2
          · exact ih cs [] hcs (by simp) l hl2
      · rename_i hLB
        refine ih cs (a :: acc) hcs ?_ l hl
        intro c hc
        rcases List.mem_cons.mp hc with rfl | hc2
        · simpa using hLB
        · exact ha c hc2

theorem pySplitlines_lbFree :
    ∀ (n : Nat) (t : Txt), t.length ≤ n → ∀ l ∈ pySplitlines t, ∀ c ∈ l, isLB c = false := by
  intro n t ht
  exact mem_splitlinesAux_lbFree n t [] ht (by simp)

theorem mapIdOn {l : List Txt} {f : Txt → Txt} (h : ∀ a ∈ l, f a = a) : l.map f = l := by
  induction l with
  | nil => rfl
  | cons a l ih =>
    rw [List.map_cons, h a (List.mem_cons_self a l),
      ih (fun x hx => h x (List.mem_cons_of_mem a hx))]

theorem normalize_output_mem {text : Txt} {l : Txt} (h : l ∈ normalize_output text) :
    l ≠ [] ∧ pyRstrip l = l ∧ ∀ c ∈ l, isLB c = false := by
  unfold normalize_output at h
  rcases List.mem_map.mp h with ⟨l0, hl0, rfl⟩
  rcases List.mem_filter.mp hl0 with ⟨hmem, hcond⟩
  refine ⟨?_, pyRstrip_idem l0, ?_⟩
  · intro hempty
    rw [hempty] at hcond
    simp at hcond
  · intro c hc
    exact pySplitlines_lbFree text.length text (Nat.le_refl _) l0 hmem c (mem_of_mem_pyRstrip hc)

/-- C3: normalization is idempotent. Applying normalize_output to the
text reassembled (with single newlines) from normalize_output text
yields exactly the same line sequence. -/
theorem normalize_idempotent (text : Txt) :
    normalize_output (joinNl (normalize_output text)) = normalize_output text := by
  have hmem := fun l (h : l ∈ normalize_output text) => normalize_output_mem h
  have hsplit : pySplitlines (joinNl (normalize_output text)) = normalize_output text := by
    apply pySplitlines_joinNl
    intro l hl
    exact ⟨(hmem l hl).1, (hmem l hl).2.2⟩
  unfold normalize_output at hsplit ⊢
  rw [hsplit]
  set ls := ((pySplitlines text).filter (fun l => !(pyRstrip l).isEmpty)).map pyRstrip with hls
  have hkeep : ∀ l ∈ ls, (fun l => !(pyRstrip l).isEmpty) l = true := by
    intro l hl
    have h : l ≠ [] ∧ pyRstrip l = l ∧ ∀ c ∈ l, isLB c = false :=
      normalize_output_mem (by rw [normalize_output]; exact hl)
    simp only [Bool.not_eq_true']
    rw [h.2.1]
    exact List.isEmpty_eq_false_iff_exists_mem.mpr
      (match l, h.1 with
        | a :: l, _ => ⟨a, List.mem_cons_self a l⟩)
  rw [List.filter_eq_self.mpr hkeep]
  apply mapIdOn
  intro l hl
  have h : l ≠ [] ∧ pyRstrip l = l ∧ ∀ c ∈ l, isLB c = false :=
    normalize_output_mem (by rw [normalize_output]; exact hl)
  exact h.2.1

/-
Staged pipeline runner, from scripts/test_ir_pipeline.py (main, runCmd)
and test/ir/run_ir_e2e.py (main, runCmd). External processes are
modelled by their observable behaviour: they either complete with an
exit code and captured streams, or exceed the wall-clock timeout with
optional partial streams (subprocess.TimeoutExpired carries bytes or
None for each stream).
-/

structure CompletedProcess where
  returncode : Int
  stdout : String
  stderr : String
deriving DecidableEq

inductive ProcBehavior
  | completed (returncode : Int) (stdout stderr : String)
  | timedOut (outPart errPart : Option String)
deriving DecidableEq

/-- Formatting of the timeout value inside the synthesized stderr
message (a Python f-string renders the int, or None). -/
def timeoutSuffix : Option Nat → String
  | some n => toString n
  | none => "None"

/-- Decoding of an optional partial stream: Python's
e.stdout.decode("utf-8") if e.stdout else "". -/
def optOut : Option String → String
  | some s => s
  | none => ""

/-- The process wrapper of scripts/test_ir_pipeline.py lines 116-126
(its Python name is a reserved Lean command, hence runCmd here): subprocess.run wrapped so
that TimeoutExpired is converted into a CompletedProcess with
returncode -1, the partial output captured so far, and a synthesized
stderr message when no partial stderr exists. -/
def runCmd (b : ProcBehavior) (timeout : Option Nat) : CompletedProcess :=
  match b with
  | .completed rc out err => ⟨rc, out, err⟩
  | .timedOut po pe =>
    let so := optOut po
    let se := optOut pe
    ⟨-1, so,
      if se = "" then "Process timed out after " ++ timeoutSuffix timeout ++ " seconds"
      else se⟩

/-- extract_last_line from scripts/test_ir_pipeline.py. -/
def extract_last_line (text : String) : String :=
  match (pySplitlines (pyRstrip text.data)).getLast? with
  | some l => String.mk l
  | none => "<no output>"

/-- The stream the failure summary quotes: result.stderr or
result.stdout (Python `or`: stderr when non-empty, else stdout). -/
def lastErrLine (r : CompletedProcess) : String :=
  extract_last_line (if r.stderr = "" then r.stdout else r.stderr)

/-- Failure reason built in main of scripts/test_ir_pipeline.py
(lines 281-291 and the two analogous blocks): an exit-form reason,
overwritten by a timeout-form reason exactly when returncode is -1. -/
def stageFailReason (stage : String) (timeoutSecs : Nat) (r : CompletedProcess) : String :=
  if r.returncode = -1 then
    stage ++ " timeout (>" ++ toString timeoutSecs ++ "s): " ++ lastErrLine r
  else
    stage ++ " exit " ++ toString r.returncode ++ ": " ++ lastErrLine r

inductive StageName
  | irPipeline
  | clangAsm
  | reimuRun
deriving DecidableEq

structure StageRecord where
  stage : StageName
  result : CompletedProcess
deriving DecidableEq

structure CaseOutcome where
  records : List StageRecord
  compared : Bool
  failure : Option String
  passed : Bool
deriving DecidableEq

/-- Per-case environment: fixture presence, the behaviour of the three
external tools for this case, the configured timeouts, and the file
contents consulted by the final comparison. -/
structure CaseEnv where
  hasIn : Bool
  hasOut : Bool
  irB : ProcBehavior
  clangB : ProcBehavior
  reimuB : ProcBehavior
  timeoutIr : Nat
  timeoutClang : Nat
  timeoutReimu : Nat
  actualOut : Txt
  expectedAns : Txt
deriving DecidableEq

def irRes (env : CaseEnv) : CompletedProcess := runCmd env.irB (some env.timeoutIr)

def clangRes (env : CaseEnv) : CompletedProcess := runCmd env.clangB (some env.timeoutClang)

def reimuRes (env : CaseEnv) : CompletedProcess := runCmd env.reimuB (some env.timeoutReimu)

/-- One iteration of the per-case loop of main in
scripts/test_ir_pipeline.py (lines 246-355): missing fixtures
short-circuit, then ir_pipeline, clang and reimu run in order, each
aborting the case on non-zero returncode, and only after all three
succeed are the outputs normalized and compared. -/
def runCase (env : CaseEnv) : CaseOutcome :=
  if env.hasIn && env.hasOut then
    if (irRes env).returncode ≠ 0 then
      ⟨[⟨.irPipeline, irRes env⟩], false,
        some (stageFailReason "ir_pipeline" env.timeoutIr (irRes env)), false⟩
    else if (clangRes env).returncode ≠ 0 then
      ⟨[⟨.irPipeline, irRes env⟩, ⟨.clangAsm, clangRes env⟩], false,
        some (stageFailReason "clang" env.timeoutClang (clangRes env)), false⟩
    else if (reimuRes env).returncode ≠ 0 then
      ⟨[⟨.irPipeline, irRes env⟩, ⟨.clangAsm, clangRes env⟩, ⟨.reimuRun, reimuRes env⟩], false,
        some (stageFailReason "reimu" env.timeoutReimu (reimuRes env)), false⟩
    else if normalize_output env.actualOut = normalize_output env.expectedAns then
      ⟨[⟨.irPipeline, irRes env⟩, ⟨.clangAsm, clangRes env⟩, ⟨.reimuRun, reimuRes env⟩], true,
        none, true⟩
    else
      ⟨[⟨.irPipeline, irRes env⟩, ⟨.clangAsm, clangRes env⟩, ⟨.reimuRun, reimuRes env⟩], true,
        some "output mismatch", false⟩
  else
    ⟨[], false, some "missing .in or .out file", false⟩

/-- Per-case environment for test/ir/run_ir_e2e.py, whose runCmd has no
timeout: stage results are plain completed processes. -/
structure CaseEnvE2e where
  hasIn : Bool
  hasOut : Bool
  irR : CompletedProcess
  clangR : CompletedProcess
  reimuR : CompletedProcess
  actualOut : Txt
  expectedAns : Txt
deriving DecidableEq

/-- Failure reason in test/ir/run_ir_e2e.py (exit form only; that script
runs without timeouts). -/
def e2eFailReason (stage : String) (r : CompletedProcess) : String :=
  stage ++ " exit " ++ toString r.returncode ++ ": " ++ lastErrLine r

/-- One iteration of the per-case loop of main in test/ir/run_ir_e2e.py
(lines 173-262), structurally identical to runCase. -/
def runCaseE2e (e : CaseEnvE2e) : CaseOutcome :=
  if e.hasIn && e.hasOut then
    if e.irR.returncode ≠ 0 then
      ⟨[⟨.irPipeline, e.irR⟩], false, some (e2eFailReason "ir_pipeline" e.irR), false⟩
    else if e.clangR.returncode ≠ 0 then
      ⟨[⟨.irPipeline, e.irR⟩, ⟨.clangAsm, e.clangR⟩], false,
        some (e2eFailReason "clang" e.clangR), false⟩
    else if e.reimuR.returncode ≠ 0 then
      ⟨[⟨.irPipeline, e.irR⟩, ⟨.clangAsm, e.clangR⟩, ⟨.reimuRun, e.reimuR⟩], false,
        some (e2eFailReason "reimu" e.reimuR), false⟩
    else if normalize_output e.actualOut = normalize_output e.expectedAns then
      ⟨[⟨.irPipeline, e.irR⟩, ⟨.clangAsm, e.clangR⟩, ⟨.reimuRun, e.reimuR⟩], true, none, true⟩
    else
      ⟨[⟨.irPipeline, e.irR⟩, ⟨.clangAsm, e.clangR⟩, ⟨.reimuRun, e.reimuR⟩], true,
        some "output mismatch", false⟩
  else
    ⟨[], false, some "missing .in or .out file", false⟩

/-- C1: fail-fast per case. In both pipeline scripts, whenever stage k
exits non-zero or times out (timeouts surface as returncode -1, which
is non-zero), the records contain exactly the stages up to k, later
stages produce no StageResult, and the terminal output comparison is
not performed. -/
theorem fail_fast_per_case (env : CaseEnv) (e : CaseEnvE2e)
    (hIn : env.hasIn = true) (hOut : env.hasOut = true)
    (hIn2 : e.hasIn = true) (hOut2 : e.hasOut = true) :
    ((irRes env).returncode ≠ 0 →
      (runCase env).records = [⟨.irPipeline, irRes env⟩] ∧ (runCase env).compared = false)
  ∧ ((irRes env).returncode = 0 → (clangRes env).returncode ≠ 0 →
      (runCase env).records = [⟨.irPipeline, irRes env⟩, ⟨.clangAsm, clangRes env⟩] ∧
        (runCase env).compared = false)
  ∧ ((irRes env).returncode = 0 → (clangRes env).returncode = 0 →
      (reimuRes env).returncode ≠ 0 →
      (runCase env).records =
          [⟨.irPipeline, irRes env⟩, ⟨.clangAsm, clangRes env⟩, ⟨.reimuRun, reimuRes env⟩] ∧
        (runCase env).compared = false)
  ∧ (e.irR.returncode ≠ 0 →
      (runCaseE2e e).records = [⟨.irPipeline, e.irR⟩] ∧ (runCaseE2e e).compared = false)
  ∧ (e.irR.returncode = 0 → e.clangR.returncode ≠ 0 →
      (runCaseE2e e).records = [⟨.irPipeline, e.irR⟩, ⟨.clangAsm, e.clangR⟩] ∧
        (runCaseE2e e).compared = false)
  ∧ (e.irR.returncode = 0 → e.clangR.returncode = 0 → e.reimuR.returncode ≠ 0 →
      (runCaseE2e e).records =
          [⟨.irPipeline, e.irR⟩, ⟨.clangAsm, e.clangR⟩, ⟨.reimuRun, e.reimuR⟩] ∧
        (runCaseE2e e).compared = false) := by
  refine ⟨?_, ?_, ?_, ?_, ?_, ?_⟩
  · intro h1
    simp [runCase, hIn, hOut, h1]
  · intro h1 h2
    simp [runCase, hIn, hOut, h1, h2]
  · intro h1 h2 h3
    simp [runCase, hIn, hOut, h1, h2, h3]
  · intro h1
    simp [runCaseE2e, hIn2, hOut2, h1]
  · intro h1 h2
    simp [runCaseE2e, hIn2, hOut2, h1, h2]
  · intro h1 h2 h3
    simp [runCaseE2e, hIn2, hOut2, h1, h2, h3]

theorem fail_fast_per_case_witness :
    (runCase ⟨true, true, .completed 0 "" "", .completed 1 "" "error: bad IR",
        .completed 0 "" "", 30, 30, 10, [], []⟩).records =
      [⟨.irPipeline, irRes ⟨true, true, .completed 0 "" "", .completed 1 "" "error: bad IR",
          .completed 0 "" "", 30, 30, 10, [], []⟩⟩,
       ⟨.clangAsm, clangRes ⟨true, true, .completed 0 "" "", .completed 1 "" "error: bad IR",
          .completed 0 "" "", 30, 30, 10, [], []⟩⟩] ∧
    (runCase ⟨true, true, .completed 0 "" "", .completed 1 "" "error: bad IR",
        .completed 0 "" "", 30, 30, 10, [], []⟩).compared = false :=
  (fail_fast_per_case
    ⟨true, true, .completed 0 "" "", .completed 1 "" "error: bad IR",
      .completed 0 "" "", 30, 30, 10, [], []⟩
    ⟨true, true, ⟨0, "", ""⟩, ⟨0, "", ""⟩, ⟨0, "", ""⟩, [], []⟩
    rfl rfl rfl rfl).2.1 rfl (by decide)

/-- C4 counterexample: the claim says every non-zero process exit is
recorded as Fail (not Timeout) with a reason naming the stage and exit
code. A stage process that completes (is not timed out by the harness)
with returncode -1 — which subprocess.run reports for a child killed by
SIGHUP — is instead recorded with the timeout-form reason. -/
theorem nonzero_exit_timeout_reason_cex :
    (runCase ⟨true, true, .completed (-1) "" "killed by signal",
        .completed 0 "" "", .completed 0 "" "", 30, 30, 10, [], []⟩).failure =
      some "ir_pipeline timeout (>30s): killed by signal" ∧
    "ir_pipeline timeout (>30s): killed by signal" ≠
      "ir_pipeline exit -1: killed by signal" := by
  exact ⟨by decide, by decide⟩

/-- C4 (amended): for every stage invocation, a non-zero process exit
with returncode other than -1 is recorded as Fail with a reason naming
the stage and the exit code; a returncode of -1 — which every timed-out
invocation carries — is recorded as Timeout with the partial output
preserved; and no stage is ever invoked twice for a case. -/
theorem stage_outcome_classification (stage : String) (ts : Nat) (r : CompletedProcess)
    (hne : r.returncode ≠ -1) :
    stageFailReason stage ts r =
        stage ++ " exit " ++ toString r.returncode ++ ": " ++ lastErrLine r
  ∧ (∀ po pe,
      (runCmd (.timedOut po pe) (some ts)).returncode = -1 ∧
      (runCmd (.timedOut po pe) (some ts)).stdout = optOut po ∧
      stageFailReason stage ts (runCmd (.timedOut po pe) (some ts)) =
        stage ++ " timeout (>" ++ toString ts ++ "s): " ++
          lastErrLine (runCmd (.timedOut po pe) (some ts)))
  ∧ (∀ env : CaseEnv, ((runCase env).records.map StageRecord.stage).Nodup) := by
  refine ⟨?_, ?_, ?_⟩
  · rw [stageFailReason, if_neg hne]
  · intro po pe
    refine ⟨rfl, rfl, ?_⟩
    have hrc : (runCmd (.timedOut po pe) (some ts)).returncode = -1 := rfl
    rw [stageFailReason, if_pos hrc]
  · intro env
    unfold runCase
    split
    · split
      · simp
      · split
        · simp
        · split
          · simp
          · split
            · simp
            · simp
    · simp

theorem stage_outcome_classification_witness :
    (-9 : Int) ≠ -1 ∧
    stageFailReason "reimu" 10 ⟨-9, "", "Segmentation fault"⟩ =
      "reimu" ++ " exit " ++ toString (-9 : Int) ++ ": " ++
        lastErrLine ⟨-9, "", "Segmentation fault"⟩ :=
  ⟨by decide, (stage_outcome_classification "reimu" 10 ⟨-9, "", "Segmentation fault"⟩
    (by decide)).1⟩

/-- C9: the invocation wrapper is total — a timeout is converted into a
result rather than an exception: returncode -1, the partial streams
preserved, and, when no partial stderr exists, a synthesized stderr
naming the timeout in seconds. Downstream classification distinguishes
timeout from other failures solely by the returncode being -1. -/
theorem runCmd_totality :
    (∀ (rc : Int) (out err : String) (t : Option Nat),
      runCmd (.completed rc out err) t = ⟨rc, out, err⟩)
  ∧ (∀ (po pe : Option String) (t : Option Nat),
      runCmd (.timedOut po pe) t =
        ⟨-1, optOut po,
          if optOut pe = "" then "Process timed out after " ++ timeoutSuffix t ++ " seconds"
          else optOut pe⟩)
  ∧ (∀ (stage : String) (ts : Nat) (r : CompletedProcess), r.returncode = -1 →
      stageFailReason stage ts r =
        stage ++ " timeout (>" ++ toString ts ++ "s): " ++ lastErrLine r)
  ∧ (∀ (stage : String) (ts : Nat) (r : CompletedProcess), r.returncode ≠ -1 →
      ∀ x : String,
        stageFailReason stage ts r ≠ stage ++ " timeout (>" ++ toString ts ++ "s): " ++ x) := by
  refine ⟨fun rc out err t => rfl, fun po pe t => rfl, ?_, ?_⟩
  · intro stage ts r h
    rw [stageFailReason, if_pos h]
  · intro stage ts r h x hEq
    rw [stageFailReason, if_neg h] at hEq
    have hd := congrArg String.data hEq
    simp only [String.data_append, List.append_assoc] at hd
    have hc := List.append_cancel_left hd
    have h2 := congrArg (fun l : Txt => l.take 2) hc
    simp only [List.take_append_of_le_length (by decide : 2 ≤ " exit ".data.length),
      List.take_append_of_le_length (by decide : 2 ≤ " timeout (>".data.length)] at h2
    exact absurd h2 (by decide)

theorem runCmd_totality_witness :
    runCmd (.timedOut none none) (some 5) = ⟨-1, "", "Process timed out after 5 seconds"⟩ ∧
    stageFailReason "clang" 30 ⟨-1, "", ""⟩ =
      "clang" ++ " timeout (>" ++ toString (30 : Nat) ++ "s): " ++ lastErrLine ⟨-1, "", ""⟩ ∧
    stageFailReason "clang" 30 ⟨2, "", "boom"⟩ ≠
      "clang" ++ " timeout (>" ++ toString (30 : Nat) ++ "s): " ++ "boom" :=
  ⟨(runCmd_totality.2.1 none none (some 5)).trans (by decide),
   runCmd_totality.2.2.1 "clang" 30 ⟨-1, "", ""⟩ rfl,
   runCmd_totality.2.2.2 "clang" 30 ⟨2, "", "boom"⟩ (by decide) "boom"⟩

/-
Oracle response parsing, from parse_analysis_response in
scripts/ai_analyzer.py (lines 21-56). The Python regex

  Test-Case:\s*(.*?)\s*\n Verdict:\s*(.*?)\s*\n Reason:\s*([\s\S]*?)\n---

is modelled by an explicit backtracking matcher: every quantifier's
alternatives are enumerated in the engine's preference order (greedy
\s* longest first, lazy groups shortest first, choice points nested
left to right) and the first alternative whose continuation succeeds is
taken, which is exactly leftmost preferred-match semantics. A dot
matches any character except a newline; \s matches exactly the
whitespace characters.
-/

def pyUpperT (l : Txt) : Txt := l.map Char.toUpper

def pyLowerT (l : Txt) : Txt := l.map Char.toLower

def firstSome {α β : Type} (f : α → Option β) : List α → Option β
  | [] => none
  | a :: as =>
    match f a with
    | some b => some b
    | none => firstSome f as

theorem firstSome_eq_some {α β : Type} {f : α → Option β} {l : List α} {b : β}
    (h : firstSome f l = some b) : ∃ a ∈ l, f a = some b := by
  induction l with
  | nil => simp [firstSome] at h
  | cons a as ih =>
    rw [firstSome] at h
    revert h
    split
    · intro h
      rename_i heq
      exact ⟨a, List.mem_cons_self a as, heq.trans h⟩
    · intro h
      rcases ih h with ⟨x, hx, hfx⟩
      exact ⟨x, List.mem_cons_of_mem a hx, hfx⟩

/-- Length of the maximal run of regex whitespace at the head. -/
def wsRun (s : Txt) : Nat := (s.takeWhile pyIsSpace).length

/-- Length of the maximal run of dot-matchable (non-newline) characters. -/
def dotRun (s : Txt) : Nat := (s.takeWhile (fun c => !(c == '\n'))).length

structure RawMatch where
  name : Txt
  verdict : Txt
  reason : Txt
deriving DecidableEq

/-- All ways to match a field tail of shape whitespace-star, lazy group
of non-newline characters, whitespace-star, then a literal newline —
listed in backtracking preference order; each candidate is the group
content paired with the remainder after the newline. -/
def fieldCandidates (s : Txt) : List (Txt × Txt) :=
  ((List.range (wsRun s + 1)).reverse).flatMap (fun w =>
    let s1 := s.drop w
    (List.range (dotRun s1 + 1)).flatMap (fun g =>
      let s2 := s1.drop g
      ((List.range (wsRun s2 + 1)).reverse).filterMap (fun v =>
        let s3 := s2.drop v
        if s3.head? = some '\n' then some (s1.take g, s3.tail) else none)))

/-- All ways to match the reason tail: whitespace-star, a lazy group of
arbitrary characters, then the literal newline and three dashes. -/
def reasonCandidates (s : Txt) : List (Txt × Txt) :=
  ((List.range (wsRun s + 1)).reverse).flatMap (fun w =>
    let s1 := s.drop w
    (List.range (s1.length + 1)).filterMap (fun g =>
      let s2 := s1.drop g
      if "\n---".data.isPrefixOf s2 then some (s1.take g, s2.drop 4) else none))

/-- Attempt to match the whole block pattern at the start of s,
returning the three captured groups and the remainder after the
trailing dashes. -/
def matchBlock? (s : Txt) : Option (RawMatch × Txt) :=
  if "Test-Case:".data.isPrefixOf s then
    firstSome (fun nc =>
      if "Verdict:".data.isPrefixOf nc.2 then
        firstSome (fun vc =>
          if "Reason:".data.isPrefixOf vc.2 then
            firstSome (fun rc2 => some (⟨nc.1, vc.1, rc2.1⟩, rc2.2))
              (reasonCandidates (vc.2.drop "Reason:".length))
          else none)
          (fieldCandidates (nc.2.drop "Verdict:".length))
      else none)
      (fieldCandidates (s.drop "Test-Case:".length))
  else none

theorem fieldCandidates_rest_lt {s : Txt} {p : Txt × Txt} (h : p ∈ fieldCandidates s) :
    p.2.length < s.length := by
  simp only [fieldCandidates, List.mem_flatMap, List.mem_reverse, List.mem_range,
    List.mem_filterMap] at h
  rcases h with ⟨w, _, g, _, v, _, hv⟩
  revert hv
  split
  · intro hv
    rename_i hhead
    cases hv
    have hne : List.drop v (List.drop g (List.drop w s)) ≠ [] := by
      intro he
      rw [he] at hhead
      simp at hhead
    have hpos : 0 < (List.drop v (List.drop g (List.drop w s))).length :=
      List.length_pos.mpr hne
    simp only [List.length_drop] at hpos
    simp only [List.length_tail, List.length_drop]
    omega
  · intro hv
    cases hv

theorem reasonCandidates_rest_lt {s : Txt} {p : Txt × Txt} (h : p ∈ reasonCandidates s) :
    p.2.length < s.length := by
  simp only [reasonCandidates, List.mem_flatMap, List.mem_reverse, List.mem_range,
    List.mem_filterMap] at h
  rcases h with ⟨w, _, g, _, hg⟩
  revert hg
  split
  · intro hg
    rename_i hpre
    cases hg
    have hlen : "\n---".data.length ≤ ((s.drop w).drop g).length :=
      List.IsPrefix.length_le (List.isPrefixOf_iff_prefix.mp hpre)
    have h4 : ("\n---".data).length = 4 := by decide
    rw [h4] at hlen
    simp only [List.length_drop] at hlen ⊢
    omega
  · intro hg
    cases hg

theorem matchBlock_rest_lt {s : Txt} {m : RawMatch} {rest : Txt}
    (h : matchBlock? s = some (m, rest)) : rest.length < s.length := by
  unfold matchBlock? at h
  revert h
  split
  · intro h
    rcases firstSome_eq_some h with ⟨nc, hnc, h1⟩
    revert h1
    split
    · intro h1
      rcases firstSome_eq_some h1 with ⟨vc, hvc, h2⟩
      revert h2
      split
      · intro h2
        rcases firstSome_eq_some h2 with ⟨rc2, hrc2, h3⟩
        cases h3
        have e3 : (rc2.2).length < (vc.2.drop "Reason:".length).length :=
          reasonCandidates_rest_lt hrc2
        have e2 : vc.2.length < (nc.2.drop "Verdict:".length).length :=
          fieldCandidates_rest_lt hvc
        have e1 : nc.2.length < (s.drop "Test-Case:".length).length :=
          fieldCandidates_rest_lt hnc
        simp only [List.length_drop] at e1 e2 e3
        omega
      · intro h2
        cases h2
    · intro h1
      cases h1
  · intro h
    cases h

/-- re.finditer: scan left to right for the leftmost match, record it,
continue after its end; overlapping matches are not produced. The fuel
argument only serves structural termination; one unit per scanned
position is enough because every match consumes at least one character
(findMatchesGo_fuel below). -/
def findMatchesGo : Nat → Txt → List RawMatch
  | 0, _ => []
  | _ + 1, [] => []
  | fuel + 1, c :: cs =>
    match matchBlock? (c :: cs) with
    | some (m, rest) => m :: findMatchesGo fuel rest
    | none => findMatchesGo fuel cs

theorem findMatchesGo_fuel :
    ∀ (n : Nat) (s : Txt), s.length ≤ n → findMatchesGo n s = findMatchesGo s.length s := by
  intro n
  induction n using Nat.strong_induction_on with
  | _ n ih =>
    intro s hs
    match n, s with
    | 0, s =>
      have : s = [] := List.length_eq_zero.mp (Nat.le_zero.mp hs)
      subst this
      rfl
    | n + 1, [] => rfl
    | n + 1, c :: cs =>
      simp only [List.length_cons] at hs
      show findMatchesGo (n + 1) (c :: cs) = findMatchesGo (cs.length + 1) (c :: cs)
      rw [findMatchesGo, findMatchesGo]
      rcases hmb : matchBlock? (c :: cs) with _ | ⟨m, rest⟩
      · simp only [hmb]
        exact ih n (Nat.lt_succ_self n) cs (Nat.le_of_succ_le_succ hs)
      · simp only [hmb]
        have hlt : rest.length < cs.length + 1 := matchBlock_rest_lt hmb
        have e1 : findMatchesGo n rest = findMatchesGo rest.length rest := by
          apply ih n (Nat.lt_succ_self n) rest
          omega
        have e2 : findMatchesGo cs.length rest = findMatchesGo rest.length rest := by
          apply ih cs.length (by omega) rest
          omega
        rw [e1, e2]

/-- The matches of the whole text, with just enough fuel. -/
def findMatches (s : Txt) : List RawMatch := findMatchesGo s.length s

/-- Python str.split with separator newline: keeps empty pieces and
maps the empty string to one empty piece. -/
def splitOnNl : Txt → List Txt
  | [] => [[]]
  | c :: cs =>
    if c = '\n' then [] :: splitOnNl cs
    else
      match splitOnNl cs with
      | [] => [[c]]
      | h :: t => (c :: h) :: t

/-- Python dict assignment d[k] = v: replace the value in place when
the key is present, append the pair otherwise. -/
def dictInsert : List (Txt × (Bool × Txt)) → Txt → (Bool × Txt) → List (Txt × (Bool × Txt))
  | [], k, v => [(k, v)]
  | p :: ps, k, v => if p.1 = k then (k, v) :: ps else p :: dictInsert ps k v

/-- The entry built for one regex match (ai_analyzer.py lines 49-54):
key is the stripped test name, value is whether the stripped upper-cased
verdict equals CORRECT, paired with the stripped reason. -/
def entryOf (m : RawMatch) : Txt × (Bool × Txt) :=
  (pyStrip m.name,
    (decide (pyUpperT (pyStrip m.verdict) = "CORRECT".data), pyStrip m.reason))

/-- The results dict accumulated over all matches in order. -/
def buildResults (ms : List RawMatch) : List (Txt × (Bool × Txt)) :=
  ms.foldl (fun d m => dictInsert d (entryOf m).1 (entryOf m).2) []

/-- Python dict lookup. -/
def dlookup (k : Txt) : List (Txt × (Bool × Txt)) → Option (Bool × Txt)
  | [] => none
  | p :: ps => if p.1 = k then some p.2 else dlookup k ps

/-- The fence pre-processing of parse_analysis_response (lines 29-37),
as a standalone function: when the stripped response both starts and
ends with a triple backtick, drop its first and last line (or produce
the empty text when there are at most two lines). -/
def stripFence (cleaned : Txt) : Txt :=
  if "```".data.isPrefixOf cleaned ∧ "```".data.isSuffixOf cleaned then
    if 2 < (splitOnNl cleaned).length then joinNl (((splitOnNl cleaned).drop 1).dropLast)
    else []
  else cleaned

/-- parse_analysis_response from scripts/ai_analyzer.py: strip the
response, remove an enclosing markdown fence, extract all well-formed
Test-Case/Verdict/Reason blocks and fold them into the results dict. -/
def parse_analysis_response (t : Txt) : List (Txt × (Bool × Txt)) :=
  let cleaned := pyStrip t
  let cleaned2 :=
    if "```".data.isPrefixOf cleaned ∧ "```".data.isSuffixOf cleaned then
      if 2 < (splitOnNl cleaned).length then joinNl (((splitOnNl cleaned).drop 1).dropLast)
      else []
    else cleaned
  buildResults (findMatches cleaned2)

theorem dlookup_dictInsert (d : List (Txt × (Bool × Txt))) (k k' : Txt) (v : Bool × Txt) :
    dlookup k' (dictInsert d k v) = if k = k' then some v else dlookup k' d := by
  induction d with
  | nil => rfl
  | cons p ps ih =>
    by_cases hp : p.1 = k
    · rw [dictInsert, if_pos hp, dlookup, dlookup]
      by_cases hk : k = k'
      · simp [hk]
      · rw [if_neg hk, if_neg hk, if_neg (by rw [hp]; exact hk)]
    · rw [dictInsert, if_neg hp, dlookup, dlookup, ih]
      by_cases hpk : p.1 = k'
      · rw [if_pos hpk, if_pos hpk, if_neg (by rw [← hpk]; exact fun he => hp he.symm)]
      · rw [if_neg hpk, if_neg hpk]

theorem keys_dictInsert_mem (d : List (Txt × (Bool × Txt))) (k a : Txt) (v : Bool × Txt) :
    a ∈ (dictInsert d k v).map Prod.fst ↔ a ∈ d.map Prod.fst ∨ a = k := by
  induction d with
  | nil => simp [dictInsert, eq_comm]
  | cons p ps ih =>
    by_cases hp : p.1 = k
    · rw [dictInsert, if_pos hp]
      simp only [List.map_cons, List.mem_cons, ih, hp, eq_comm]
      tauto
    · rw [dictInsert, if_neg hp]
      simp only [List.map_cons, List.mem_cons, ih]
      tauto

theorem keys_dictInsert_nodup {d : List (Txt × (Bool × Txt))} {k : Txt} {v : Bool × Txt}
    (h : (d.map Prod.fst).Nodup) : ((dictInsert d k v).map Prod.fst).Nodup := by
  induction d with
  | nil => simp [dictInsert]
  | cons p ps ih =>
    rw [List.map_cons, List.nodup_cons] at h
    by_cases hp : p.1 = k
    · rw [dictInsert, if_pos hp]
      rw [List.map_cons, List.nodup_cons]
      exact ⟨hp ▸ h.1, h.2⟩
    · rw [dictInsert, if_neg hp]
      rw [List.map_cons, List.nodup_cons]
      refine ⟨?_, ih h.2⟩
      rw [keys_dictInsert_mem]
      rintro (hmem | rfl)
      · exact h.1 hmem
      · exact hp rfl

theorem dlookup_foldl (ms : List RawMatch) (d : List (Txt × (Bool × Txt))) (n : Txt) :
    dlookup n (ms.foldl (fun d m => dictInsert d (entryOf m).1 (entryOf m).2) d) =
      match (ms.filter (fun m => decide ((entryOf m).1 = n))).getLast? with
      | some m => some (entryOf m).2
      | none => dlookup n d := by
  induction ms generalizing d with
  | nil => rfl
  | cons m ms ih =>
    rw [List.foldl_cons, ih]
    by_cases hk : (entryOf m).1 = n
    · rw [List.filter_cons_of_pos (by simpa using hk)]
      cases hfil : ms.filter (fun m => decide ((entryOf m).1 = n)) with
      | nil =>
        simp only [List.getLast?_singleton, List.getLast?_nil]
        rw [dlookup_dictInsert, if_pos hk]
      | cons x xs =>
        cases hg : (x :: xs).getLast? with
        | none => simp at hg
        | some a => rw [List.getLast?_cons_cons, hg]
    · rw [List.filter_cons_of_neg (by simpa using hk)]
      cases hfil : ms.filter (fun m => decide ((entryOf m).1 = n)) with
      | nil =>
        simp only [List.getLast?_nil]
        rw [dlookup_dictInsert, if_neg hk]
      | cons x xs =>
        cases hg : (x :: xs).getLast? with
        | none => simp at hg
        | some a => rfl

theorem buildResults_keys_nodup (ms : List RawMatch) :
    ((buildResults ms).map Prod.fst).Nodup := by
  have haux : ∀ (l : List RawMatch) (d : List (Txt × (Bool × Txt))),
      (d.map Prod.fst).Nodup →
      ((l.foldl (fun d m => dictInsert d (entryOf m).1 (entryOf m).2) d).map Prod.fst).Nodup := by
    intro l
    induction l with
    | nil => intro d hd; exact hd
    | cons m ms ih =>
      intro d hd
      rw [List.foldl_cons]
      exact ih _ (keys_dictInsert_nodup hd)
  exact haux ms [] (by simp)

theorem mem_of_getLast?_eq {α : Type} {l : List α} {a : α} (h : l.getLast? = some a) :
    a ∈ l := by
  induction l with
  | nil => simp at h
  | cons x xs ih =>
    cases xs with
    | nil =>
      simp only [List.getLast?_singleton, Option.some.injEq] at h
      simp [h]
    | cons y ys =>
      rw [List.getLast?_cons_cons] at h
      exact List.mem_cons_of_mem x (ih h)

theorem dlookup_buildResults_some {ms : List RawMatch} {n : Txt} {e : Bool × Txt}
    (h : dlookup n (buildResults ms) = some e) :
    ∃ m ∈ ms, (entryOf m).1 = n ∧ (entryOf m).2 = e := by
  rw [buildResults, dlookup_foldl] at h
  revert h
  cases hfil : ms.filter (fun m => decide ((entryOf m).1 = n)) with
  | nil => intro h; cases h
  | cons x xs =>
    intro h
    cases hg : (x :: xs).getLast? with
    | none => simp at hg
    | some m =>
      rw [hg] at h
      have h2 : some ((entryOf m).2) = some e := h
      injection h2 with h3
      have hmem : m ∈ x :: xs := mem_of_getLast?_eq hg
      rw [← hfil] at hmem
      rcases List.mem_filter.mp hmem with ⟨hm, hcond⟩
      exact ⟨m, hm, by simpa using hcond, h3⟩

/-- C7: oracle response parsing, for every response text. If the
stripped response is wrapped in a triple-backtick fence, the fence
lines are removed before any grammar matching: with more than two
lines the grammar runs on the newline-join of the middle lines, with
at most two lines the parsed result is empty. A response not wrapped
in a fence is grammar-matched as stripped. Every entry of the parsed
result arises from a matched Test-Case/Verdict/Reason block of the
pre-processed text: its key is the stripped captured name, its reason
the stripped captured reason, and its boolean is true exactly when the
stripped verdict token upper-cases to CORRECT; blocks that do not
match contribute nothing, and the parser is a total function
(malformed input never raises). -/
theorem oracle_response_parsing (t : Txt) :
    ("```".data.isPrefixOf (pyStrip t) = true → "```".data.isSuffixOf (pyStrip t) = true →
      ((2 < (splitOnNl (pyStrip t)).length →
        parse_analysis_response t =
          buildResults (findMatches (joinNl (((splitOnNl (pyStrip t)).drop 1).dropLast))))
      ∧ ((splitOnNl (pyStrip t)).length ≤ 2 → parse_analysis_response t = [])))
  ∧ (¬("```".data.isPrefixOf (pyStrip t) = true ∧ "```".data.isSuffixOf (pyStrip t) = true) →
      parse_analysis_response t = buildResults (findMatches (pyStrip t)))
  ∧ (∀ n b r, dlookup n (parse_analysis_response t) = some (b, r) →
      ∃ m ∈ findMatches (stripFence (pyStrip t)),
        pyStrip m.name = n ∧ pyStrip m.reason = r ∧
          (b = true ↔ pyUpperT (pyStrip m.verdict) = "CORRECT".data)) := by
  refine ⟨?_, ?_, ?_⟩
  · intro hp hs
    constructor
    · intro hlen
      simp only [parse_analysis_response]
      rw [if_pos ⟨hp, hs⟩, if_pos hlen]
    · intro hlen
      simp only [parse_analysis_response]
      rw [if_pos ⟨hp, hs⟩, if_neg (Nat.not_lt.mpr hlen)]
      rfl
  · intro hno
    simp only [parse_analysis_response]
    rw [if_neg hno]
  · intro n b r h
    have h2 : dlookup n (buildResults (findMatches (stripFence (pyStrip t)))) =
        some (b, r) := h
    rcases dlookup_buildResults_some h2 with ⟨m, hm, hk, hv⟩
    have hb : decide (pyUpperT (pyStrip m.verdict) = "CORRECT".data) = b :=
      congrArg Prod.fst hv
    have hr : pyStrip m.reason = r := congrArg Prod.snd hv
    exact ⟨m, hm, hk, hr,
      by rw [← hb]; exact ⟨of_decide_eq_true, fun hc => decide_eq_true hc⟩⟩

theorem oracle_response_parsing_witness :
    (parse_analysis_response
        "```\nTest-Case: T1\nVerdict: correct\nReason: ok\n---\n```".data =
      buildResults (findMatches (joinNl (((splitOnNl (pyStrip
        "```\nTest-Case: T1\nVerdict: correct\nReason: ok\n---\n```".data)).drop 1).dropLast))))
  ∧ (parse_analysis_response "Test-Case: T2\nVerdict: wrong\nReason: no\n---".data =
      buildResults (findMatches
        (pyStrip "Test-Case: T2\nVerdict: wrong\nReason: no\n---".data))) :=
  ⟨(((oracle_response_parsing
      "```\nTest-Case: T1\nVerdict: correct\nReason: ok\n---\n```".data).1
      (by decide) (by decide)).1 (by decide)),
   ((oracle_response_parsing
      "Test-Case: T2\nVerdict: wrong\nReason: no\n---".data).2.1 (by decide))⟩

/-- C10: duplicate verdict blocks. The parsed result has exactly one
entry per distinct stripped test name, and looking a name up yields the
verdict and reason of the last well-formed block with that name in the
(fence-stripped) response — later blocks overwrite earlier ones. -/
theorem duplicate_blocks_last_wins (t : Txt) :
    ((parse_analysis_response t).map Prod.fst).Nodup
  ∧ ∀ n, dlookup n (parse_analysis_response t) =
      match ((findMatches (stripFence (pyStrip t))).filter
          (fun m => decide (pyStrip m.name = n))).getLast? with
      | some m =>
        some (decide (pyUpperT (pyStrip m.verdict) = "CORRECT".data), pyStrip m.reason)
      | none => none := by
  constructor
  · exact buildResults_keys_nodup (findMatches (stripFence (pyStrip t)))
  · intro n
    exact dlookup_foldl (findMatches (stripFence (pyStrip t))) [] n

/-
Oracle fan-out and report aggregation, from analyze_batch_with_ai in
scripts/ai_analyzer.py (lines 58-113) and the analysis loop of main in
scripts/generate_report.py (lines 127-178). The remote call is modelled
by its outcome: a response carrying a (possibly empty) list of choices,
or an exception (transport failure). The ThreadPoolExecutor completes
every submitted batch and the scripts sort all reported failures by
name, so per-batch contributions are modelled in submission order;
membership statements are unaffected by completion order.
-/

inductive ApiOutcome
  | success (choices : List Txt)
  | failure (emsg : Txt)
deriving DecidableEq

structure LogEntry where
  path : Txt
  content : Txt
deriving DecidableEq

def natTxt (n : Nat) : Txt := (toString n).data

def errorLogPath (stage : Txt) (batchNum : Nat) : Txt :=
  stage ++ "_batch_".data ++ natTxt batchNum ++ "_error.log".data

def responseLogPath (stage : Txt) (batchNum : Nat) : Txt :=
  stage ++ "_batch_".data ++ natTxt batchNum ++ "_response.log".data

def errorLogContent (batchNum : Nat) (emsg : Txt) : Txt :=
  "An exception occurred during the API call for batch ".data ++ natTxt batchNum ++
    ":\n\n".data ++ emsg

/-- analyze_batch_with_ai: on a response, log the raw text and parse it
(the empty dict when there are no choices); on an exception from the
remote call, write the exception detail to a dedicated error log file
and return the empty dict — the exception is caught, never re-raised
(the usage-info appendix of the response log is omitted here). -/
def analyze_batch_with_ai (stage : Txt) (batchNum : Nat) (outcome : ApiOutcome) :
    List (Txt × (Bool × Txt)) × List LogEntry :=
  match outcome with
  | .success choices =>
    match choices.head? with
    | some raw =>
      (parse_analysis_response raw,
        [⟨responseLogPath stage batchNum, "--- API Response ---\n".data ++ raw⟩])
    | none =>
      ([],
        [⟨responseLogPath stage batchNum,
          "--- API Response ---\n".data ++
            "Error: No response choices received from API.".data⟩])
  | .failure emsg =>
    ([], [⟨errorLogPath stage batchNum, errorLogContent batchNum emsg⟩])

/-- The fixed reason recorded for a test id with no parsed verdict
(generate_report.py line 155). -/
def noVerdictReason : Txt :=
  "AI did not return a valid analysis block for this test case.".data

structure BatchFailure where
  name : Txt
  reason : Txt
deriving DecidableEq

/-- The per-batch aggregation loop (generate_report.py lines 151-159):
a name with no entry in the parsed results is recorded as a failure
with the fixed reason; a name whose parsed verdict is false is recorded
with the parsed reason; a name whose parsed verdict is true is not
recorded. -/
def aggregateBatch (names : List Txt) (results : List (Txt × (Bool × Txt))) :
    List BatchFailure :=
  names.filterMap (fun n =>
    match dlookup n results with
    | none => some ⟨n, noVerdictReason⟩
    | some (true, _) => none
    | some (false, reason) => some ⟨n, reason⟩)

structure OracleBatch where
  stage : Txt
  num : Nat
  names : List Txt
  outcome : ApiOutcome
deriving DecidableEq

/-- The whole analysis phase: every batch is analyzed and aggregated;
failures and log entries accumulate across batches. -/
def runAnalysis (batches : List OracleBatch) : List BatchFailure × List LogEntry :=
  batches.foldl (fun acc b =>
    (acc.1 ++ aggregateBatch b.names (analyze_batch_with_ai b.stage b.num b.outcome).1,
     acc.2 ++ (analyze_batch_with_ai b.stage b.num b.outcome).2)) ([], [])

theorem runAnalysis_fst (batches : List OracleBatch) :
    (runAnalysis batches).1 =
      batches.flatMap (fun b =>
        aggregateBatch b.names (analyze_batch_with_ai b.stage b.num b.outcome).1) := by
  have haux : ∀ (bs : List OracleBatch) (acc : List BatchFailure × List LogEntry),
      (bs.foldl (fun acc b =>
        (acc.1 ++ aggregateBatch b.names (analyze_batch_with_ai b.stage b.num b.outcome).1,
         acc.2 ++ (analyze_batch_with_ai b.stage b.num b.outcome).2)) acc).1 =
      acc.1 ++ bs.flatMap (fun b =>
        aggregateBatch b.names (analyze_batch_with_ai b.stage b.num b.outcome).1) := by
    intro bs
    induction bs with
    | nil => intro acc; simp
    | cons b bs ih =>
      intro acc
      rw [List.foldl_cons, ih]
      simp
  rw [runAnalysis, haux]
  simp

theorem runAnalysis_snd (batches : List OracleBatch) :
    (runAnalysis batches).2 =
      batches.flatMap (fun b => (analyze_batch_with_ai b.stage b.num b.outcome).2) := by
  have haux : ∀ (bs : List OracleBatch) (acc : List BatchFailure × List LogEntry),
      (bs.foldl (fun acc b =>
        (acc.1 ++ aggregateBatch b.names (analyze_batch_with_ai b.stage b.num b.outcome).1,
         acc.2 ++ (analyze_batch_with_ai b.stage b.num b.outcome).2)) acc).2 =
      acc.2 ++ bs.flatMap (fun b => (analyze_batch_with_ai b.stage b.num b.outcome).2) := by
    intro bs
    induction bs with
    | nil => intro acc; simp
    | cons b bs ih =>
      intro acc
      rw [List.foldl_cons, ih]
      simp
  rw [runAnalysis, haux]
  simp

/-- C2: conservative oracle default. For every test id of a batch: if
the parsed oracle response has no entry for that id, the aggregator
records it as a failure with the fixed reason — never as a pass; an id
with a parsed false verdict is recorded with the parsed reason; an id
with a parsed true verdict is not recorded as a failure at all. -/
theorem oracle_conservative_default (names : List Txt)
    (results : List (Txt × (Bool × Txt))) (n : Txt) (hn : n ∈ names) :
    (dlookup n results = none →
      (⟨n, noVerdictReason⟩ : BatchFailure) ∈ aggregateBatch names results)
  ∧ (∀ r, dlookup n results = some (false, r) →
      (⟨n, r⟩ : BatchFailure) ∈ aggregateBatch names results)
  ∧ (∀ r, dlookup n results = some (true, r) →
      ∀ x, (⟨n, x⟩ : BatchFailure) ∉ aggregateBatch names results) := by
  refine ⟨?_, ?_, ?_⟩
  · intro hd
    refine List.mem_filterMap.mpr ⟨n, hn, ?_⟩
    rw [hd]
  · intro r hd
    refine List.mem_filterMap.mpr ⟨n, hn, ?_⟩
    rw [hd]
  · intro r hd x hmem
    rcases List.mem_filterMap.mp hmem with ⟨n2, hn2, hf⟩
    revert hf
    rcases hd2 : dlookup n2 results with _ | ⟨b, rr⟩
    · intro hf
      injection hf with hf2
      cases hf2
      rw [hd2] at hd
      cases hd
    · cases b
      · intro hf
        injection hf with hf2
        cases hf2
        rw [hd2] at hd
        cases hd
      · intro hf
        cases hf

theorem oracle_conservative_default_witness :
    (⟨"T2".data, noVerdictReason⟩ : BatchFailure) ∈
      aggregateBatch ["T1".data, "T2".data] [("T1".data, (true, "fine".data))] :=
  (oracle_conservative_default ["T1".data, "T2".data]
    [("T1".data, (true, "fine".data))] "T2".data (by decide)).1 (by decide)

/-- C6 counterexample: a transport failure is caught inside
analyze_batch_with_ai, which returns the empty dict, so every test of
the batch is recorded with the fixed no-verdict reason — not with the
transport error's description as the claim states: the recorded reason
differs both from the error text itself and from the wrapped reason the
unreachable except-branch of generate_report.py would produce. -/
theorem transport_reason_cex :
    (runAnalysis [⟨"semantic-1".data, 1, ["T1".data], .failure "boom".data⟩]).1 =
      [⟨"T1".data, noVerdictReason⟩]
  ∧ noVerdictReason ≠ "boom".data
  ∧ noVerdictReason ≠
      "The analysis API call for this batch failed with exception: boom".data := by
  refine ⟨by decide, by decide, by decide⟩

/-- C6 (amended): for every batch whose remote call fails, every test
of that batch is marked failed with the fixed no-verdict reason (the
transport error's description is persisted in the dedicated error log,
not used as the per-test reason), the exception detail is written to a
dedicated error-log entry, and sibling batches are still processed
(their contributions are present regardless of this batch's failure). -/
theorem transport_failure_degrades (batches : List OracleBatch) (b : OracleBatch)
    (hb : b ∈ batches) (e : Txt) (he : b.outcome = .failure e) :
    (∀ n ∈ b.names, (⟨n, noVerdictReason⟩ : BatchFailure) ∈ (runAnalysis batches).1)
  ∧ (⟨errorLogPath b.stage b.num, errorLogContent b.num e⟩ : LogEntry) ∈
      (runAnalysis batches).2
  ∧ (∀ b2 ∈ batches, ∀ f ∈ aggregateBatch b2.names
        (analyze_batch_with_ai b2.stage b2.num b2.outcome).1,
      f ∈ (runAnalysis batches).1) := by
  refine ⟨?_, ?_, ?_⟩
  · intro n hn
    rw [runAnalysis_fst]
    refine List.mem_flatMap.mpr ⟨b, hb, ?_⟩
    rw [he]
    refine List.mem_filterMap.mpr ⟨n, hn, ?_⟩
    rfl
  · rw [runAnalysis_snd]
    refine List.mem_flatMap.mpr ⟨b, hb, ?_⟩
    rw [he]
    simp [analyze_batch_with_ai]
  · intro b2 hb2 f hf
    rw [runAnalysis_fst]
    exact List.mem_flatMap.mpr ⟨b2, hb2, hf⟩

theorem transport_failure_degrades_witness :
    (⟨"T1".data, noVerdictReason⟩ : BatchFailure) ∈
      (runAnalysis [⟨"semantic-1".data, 1, ["T1".data], .failure "boom".data⟩,
        ⟨"semantic-1".data, 2, ["T2".data], .success []⟩]).1 :=
  (transport_failure_degrades
    [⟨"semantic-1".data, 1, ["T1".data], .failure "boom".data⟩,
     ⟨"semantic-1".data, 2, ["T2".data], .success []⟩]
    ⟨"semantic-1".data, 1, ["T1".data], .failure "boom".data⟩
    (List.mem_cons_self _ _) "boom".data rfl).1 "T1".data (by decide)

/-
Regression checking against the baseline, from compare_outputs and the
per-case loop of main in scripts/run_tests.py. A baseline file is
modelled by its content when it exists (none = no file); filecmp.cmp
with shallow=False is byte-for-byte content equality. The per-file
classification printed by compare_outputs is NEW / PASS / FAIL.
-/

inductive RegLabel
  | NEW
  | PASS
  | FAIL
deriving DecidableEq

/-- compare_outputs (run_tests.py lines 20-34): no baseline file means
the output is classified new and counts as a match; otherwise the match
is byte equality with the baseline. -/
def compare_outputs (raw : Txt) (baseline : Option Txt) : RegLabel × Bool :=
  match baseline with
  | none => (.NEW, true)
  | some b => if raw = b then (.PASS, true) else (.FAIL, false)

structure RegCase where
  name : String
  outContent : Txt
  errContent : Txt
  baselineOut : Option Txt
  baselineErr : Option Txt
deriving DecidableEq

/-- One iteration of the regression check (lines 120-128): the id joins
the regression-failure set when the .out or the .err comparison fails. -/
def caseRegressed (c : RegCase) : Bool :=
  !(compare_outputs c.outContent c.baselineOut).2 ||
    !(compare_outputs c.errContent c.baselineErr).2

/-- The regression log written at the end of main (lines 136-140):
the sorted deduplicated names of the regressed cases (a Python set,
written in sorted order). -/
def regressionLog (cases : List RegCase) : List String :=
  (((cases.filter caseRegressed).map RegCase.name).dedup).mergeSort
    (fun a b => decide (a ≤ b))

theorem regressionLog_mem {cases : List RegCase} {n : String}
    (h : n ∈ regressionLog cases) :
    ∃ c ∈ cases, c.name = n ∧
      ((∃ bl, c.baselineOut = some bl ∧ c.outContent ≠ bl) ∨
       (∃ bl, c.baselineErr = some bl ∧ c.errContent ≠ bl)) := by
  rw [regressionLog] at h
  rw [List.mem_mergeSort, List.mem_dedup] at h
  rcases List.mem_map.mp h with ⟨c, hc, rfl⟩
  rcases List.mem_filter.mp hc with ⟨hmem, hreg⟩
  refine ⟨c, hmem, rfl, ?_⟩
  rw [caseRegressed, Bool.or_eq_true] at hreg
  rcases hreg with hout | herr
  · left
    rcases hbo : c.baselineOut with _ | bl
    · rw [hbo] at hout
      simp [compare_outputs] at hout
    · refine ⟨bl, rfl, ?_⟩
      intro heq
      rw [hbo] at hout
      simp [compare_outputs, heq] at hout
  · right
    rcases hbe : c.baselineErr with _ | bl
    · rw [hbe] at herr
      simp [compare_outputs] at herr
    · refine ⟨bl, rfl, ?_⟩
      intro heq
      rw [hbe] at herr
      simp [compare_outputs, heq] at herr

/-- C5: baseline neutrality. A case output file with no baseline file
is classified NEW and counts as a match; a name appears in the
regression log only if some case with that name has an existing
baseline file that differs byte-for-byte; in particular a name all of
whose cases have no baseline files is never in the regression log. -/
theorem baseline_neutrality :
    (∀ raw, compare_outputs raw none = (.NEW, true))
  ∧ (∀ (cases : List RegCase) (n : String), n ∈ regressionLog cases →
      ∃ c ∈ cases, c.name = n ∧
        ((∃ bl, c.baselineOut = some bl ∧ c.outContent ≠ bl) ∨
         (∃ bl, c.baselineErr = some bl ∧ c.errContent ≠ bl)))
  ∧ (∀ (cases : List RegCase) (n : String),
      (∀ c ∈ cases, c.name = n → c.baselineOut = none ∧ c.baselineErr = none) →
      n ∉ regressionLog cases) := by
  refine ⟨fun raw => rfl, fun cases n h => regressionLog_mem h, ?_⟩
  intro cases n hall hmem
  rcases regressionLog_mem hmem with ⟨c, hc, rfl, hbad⟩
  rcases hall c hc rfl with ⟨hbo, hbe⟩
  rcases hbad with ⟨bl, hsome, _⟩ | ⟨bl, hsome, _⟩
  · rw [hbo] at hsome
    cases hsome
  · rw [hbe] at hsome
    cases hsome

theorem baseline_neutrality_witness :
    "t1" ∉ regressionLog [⟨"t1", "out".data, "err".data, none, none⟩] :=
  baseline_neutrality.2.2 [⟨"t1", "out".data, "err".data, none, none⟩] "t1" (by decide)

/-
Verdict annotation handling, from scripts/test.py: parse_verdict
(lines 51-56), verdict_to_success (lines 59-63) and the per-case abort
in main (lines 110-115): a ValueError from either function makes main
print the error and return exit status 1, before any further case is
processed.
-/

def VERDICT_SUCCESS_MAP : List (Txt × Bool) :=
  [("pass".data, true), ("success".data, true), ("ok".data, true),
   ("fail".data, false), ("failure".data, false), ("error".data, false)]

def mapLookup (k : Txt) : List (Txt × Bool) → Option Bool
  | [] => none
  | p :: ps => if p.1 = k then some p.2 else mapLookup k ps

/-- Python stripped.split(":", 1)[1]: everything after the first colon. -/
def afterColon (l : Txt) : Txt := (l.dropWhile (fun c => !(c == ':'))).drop 1

/-- parse_verdict: the first line whose stripped lower-cased form
starts with the verdict label yields the text after the first colon,
stripped; a case without such a line raises a ValueError naming the
case path. -/
def parse_verdict (caseName : Txt) (caseLines : List Txt) : Except Txt Txt :=
  match caseLines.find? (fun l => "verdict:".data.isPrefixOf (pyLowerT (pyStrip l))) with
  | some l => .ok (pyStrip (afterColon (pyStrip l)))
  | none => .error ("verdict not found in ".data ++ caseName)

/-- verdict_to_success: the closed token vocabulary, matched on the
lower-cased token; anything else raises a ValueError quoting the token. -/
def verdict_to_success (v : Txt) : Except Txt Bool :=
  match mapLookup (pyLowerT v) VERDICT_SUCCESS_MAP with
  | some b => .ok b
  | none => .error ("unsupported verdict '".data ++ v ++ "'".data)

/-- The expectation extraction for one case (main lines 110-112). -/
def caseExpectation (caseName : Txt) (caseLines : List Txt) : Except Txt Bool :=
  match parse_verdict caseName caseLines with
  | .ok v => verdict_to_success v
  | .error e => .error e

/-- The discovery part of the per-case loop of main: cases are
processed in order and the first missing or unsupported verdict
annotation aborts with its error. -/
def discoverExpectations : List (Txt × List Txt) → Except Txt (List Bool)
  | [] => .ok []
  | (nm, ls) :: rest =>
    match caseExpectation nm ls with
    | .error e => .error e
    | .ok b =>
      match discoverExpectations rest with
      | .error e => .error e
      | .ok bs => .ok (b :: bs)

/-- The observable outcome of discovery in main: on the first bad
annotation the run stops with exit status 1 and the error written to
stderr; otherwise discovery passes and the run continues (exit status
then determined by the mismatch count). -/
def runVerdictDiscovery (cases : List (Txt × List Txt)) : Nat × Option Txt :=
  match discoverExpectations cases with
  | .error e => (1, some ("error: ".data ++ e ++ "\n".data))
  | .ok _ => (0, none)

theorem mapLookup_vocab (k : Txt) :
    (mapLookup k VERDICT_SUCCESS_MAP = some true ↔
      k = "pass".data ∨ k = "success".data ∨ k = "ok".data)
  ∧ (mapLookup k VERDICT_SUCCESS_MAP = some false ↔
      k = "fail".data ∨ k = "failure".data ∨ k = "error".data) := by
  simp only [VERDICT_SUCCESS_MAP, mapLookup]
  constructor
  · constructor
    · intro h
      split_ifs at h <;> simp_all
    · rintro (rfl | rfl | rfl) <;> simp [mapLookup]
  · constructor
    · intro h
      split_ifs at h <;> simp_all
    · rintro (rfl | rfl | rfl) <;> simp [mapLookup]

/-- C8: verdict annotation handling. The loader maps the closed token
vocabulary case-insensitively: success tokens pass/success/ok and
failure tokens fail/failure/error, judged on the lower-cased token; any
case in the run whose annotation is missing or whose token is outside
the vocabulary makes discovery fail, and the run aborts with exit
status 1 (non-zero) and a descriptive message. -/
theorem verdict_annotation_handling :
    (∀ v : Txt,
      (verdict_to_success v = .ok true ↔
        pyLowerT v = "pass".data ∨ pyLowerT v = "success".data ∨ pyLowerT v = "ok".data)
    ∧ (verdict_to_success v = .ok false ↔
        pyLowerT v = "fail".data ∨ pyLowerT v = "failure".data ∨ pyLowerT v = "error".data))
  ∧ (∀ (cases : List (Txt × List Txt)) (nm : Txt) (ls : List Txt) (e : Txt),
      (nm, ls) ∈ cases → caseExpectation nm ls = .error e →
      ∃ e2, discoverExpectations cases = .error e2 ∧
        runVerdictDiscovery cases = (1, some ("error: ".data ++ e2 ++ "\n".data)) ∧
        (1 : Nat) ≠ 0) := by
  constructor
  · intro v
    constructor
    · rw [verdict_to_success]
      rcases hm : mapLookup (pyLowerT v) VERDICT_SUCCESS_MAP with _ | b
      · simp only []
        constructor
        · intro h; cases h
        · intro h
          rw [← (mapLookup_vocab (pyLowerT v)).1] at h
          rw [hm] at h
          cases h
      · simp only [Except.ok.injEq]
        constructor
        · rintro rfl
          exact (mapLookup_vocab (pyLowerT v)).1.mp hm
        · intro h
          have h2 := (mapLookup_vocab (pyLowerT v)).1.mpr h
          rw [hm] at h2
          exact Option.some.inj h2
    · rw [verdict_to_success]
      rcases hm : mapLookup (pyLowerT v) VERDICT_SUCCESS_MAP with _ | b
      · simp only []
        constructor
        · intro h; cases h
        · intro h
          rw [← (mapLookup_vocab (pyLowerT v)).2] at h
          rw [hm] at h
          cases h
      · simp only [Except.ok.injEq]
        constructor
        · rintro rfl
          exact (mapLookup_vocab (pyLowerT v)).2.mp hm
        · intro h
          have h2 := (mapLookup_vocab (pyLowerT v)).2.mpr h
          rw [hm] at h2
          exact Option.some.inj h2
  · intro cases
    induction cases with
    | nil =>
      intro nm ls e hmem
      simp at hmem
    | cons c rest ih =>
      intro nm ls e hmem herr
      rcases c with ⟨nm2, ls2⟩
      rcases List.mem_cons.mp hmem with hhead | htail
      · injection hhead with h1 h2
        subst h1
        subst h2
        refine ⟨e, ?_, ?_, by decide⟩
        · rw [discoverExpectations, herr]
        · rw [runVerdictDiscovery, discoverExpectations, herr]
      · rcases hce : caseExpectation nm2 ls2 with e2 | b
        · refine ⟨e2, ?_, ?_, by decide⟩
          · rw [discoverExpectations, hce]
          · rw [runVerdictDiscovery, discoverExpectations, hce]
        · rcases ih nm ls e htail herr with ⟨e2, hd, _, _⟩
          refine ⟨e2, ?_, ?_, by decide⟩
          · rw [discoverExpectations, hce, hd]
          · rw [runVerdictDiscovery, discoverExpectations, hce, hd]

theorem verdict_annotation_handling_witness :
    ∃ e2, discoverExpectations [("a.rx".data, ["Verdict: maybe".data])] = .error e2 ∧
      runVerdictDiscovery [("a.rx".data, ["Verdict: maybe".data])] =
        (1, some ("error: ".data ++ e2 ++ "\n".data)) ∧ (1 : Nat) ≠ 0 :=
  verdict_annotation_handling.2 [("a.rx".data, ["Verdict: maybe".data])]
    "a.rx".data ["Verdict: maybe".data]
    ("unsupported verdict '".data ++ "maybe".data ++ "'".data)
    (List.mem_cons_self _ _) rfl
